import Mathlib

/-!
A verification development for the three quantum-computing demonstration
scripts of this repository (BellStateExample.py, GroversSearchExample.py,
QuantumTeleportationExample.py).

The scripts build small fixed-size circuits and execute them on a
state-vector simulator.  We embed that execution model shallowly:

* a state vector on `n` qubits is a function `ℕ → ℂ`, the amplitude of the
  computational-basis state with index `i` (qubit `q` is bit `q` of `i`,
  the little-endian convention the library uses for registers);
* gates act index-wise on amplitudes;
* measurement of a qubit projects onto the sampled outcome with the Born
  probability and renormalizes, writing the outcome into a classical
  register; a whole-shot execution is parametrized by the list of sampled
  outcomes, and carries the accumulated probability weight of that branch;
* a gate carrying a classical condition is applied exactly when the value
  of the classical register at gate-execution time equals the configured
  target, and is skipped otherwise.

The circuits of the three scripts are then transcribed operation by
operation and their behaviour is proved.
-/

noncomputable section

open Finset

open scoped Matrix

/-- Bit `q` of the basis-state index `i`: the computational-basis value of
qubit `q` in that basis state. -/
def qbit (q i : ℕ) : Bool := i.testBit q

/-- The basis-state index `i` with the bit of qubit `q` flipped. -/
def bflip (q i : ℕ) : ℕ := i ^^^ 2 ^ q

/-- The square root of two, as a complex scalar. -/
def sqrt2C : ℂ := (Real.sqrt 2 : ℝ)

/-- Hadamard gate on qubit `q` of a state vector. -/
def applyH (q : ℕ) (sv : ℕ → ℂ) : ℕ → ℂ := fun i =>
  if qbit q i then (sv (bflip q i) - sv i) / sqrt2C
  else (sv i + sv (bflip q i)) / sqrt2C

/-- Pauli-X gate on qubit `q`. -/
def applyX (q : ℕ) (sv : ℕ → ℂ) : ℕ → ℂ := fun i => sv (bflip q i)

/-- Pauli-Z gate on qubit `q`. -/
def applyZ (q : ℕ) (sv : ℕ → ℂ) : ℕ → ℂ := fun i =>
  if qbit q i then -sv i else sv i

/-- Controlled-NOT gate with control qubit `c` and target qubit `t`. -/
def applyCX (c t : ℕ) (sv : ℕ → ℂ) : ℕ → ℂ := fun i =>
  if qbit c i then sv (bflip t i) else sv i

/-- Controlled-Z gate on qubits `c` and `t` (symmetric). -/
def applyCZ (c t : ℕ) (sv : ℕ → ℂ) : ℕ → ℂ := fun i =>
  if qbit c i && qbit t i then -sv i else sv i

/-- Toffoli (multi-controlled X) gate with controls `c1, c2` and target `t`. -/
def applyCCX (c1 c2 t : ℕ) (sv : ℕ → ℂ) : ℕ → ℂ := fun i =>
  if qbit c1 i && qbit c2 i then sv (bflip t i) else sv i

/-- State preparation of qubit `q` in the single-qubit state `a·|0⟩ + b·|1⟩`,
as used by the teleportation script's `initialize` on a freshly allocated
qubit (the qubit holds `|0⟩` and is unentangled when it is prepared). -/
def applyInit1 (a b : ℂ) (q : ℕ) (sv : ℕ → ℂ) : ℕ → ℂ := fun i =>
  if qbit q i then b * sv (bflip q i) else a * sv i

/-- Born probability that measuring qubit `q` of the `n`-qubit state `sv`
yields the outcome bit `b`. -/
def measProb (n q : ℕ) (b : Bool) (sv : ℕ → ℂ) : ℝ :=
  ∑ i ∈ range (2 ^ n), if qbit q i = b then Complex.normSq (sv i) else 0

/-- Post-measurement state: project onto the subspace where qubit `q` reads
`b` and renormalize the surviving amplitudes. -/
def collapse (n q : ℕ) (b : Bool) (sv : ℕ → ℂ) : ℕ → ℂ := fun i =>
  if qbit q i = b then sv i / (Real.sqrt (measProb n q b sv) : ℝ) else 0

/-- The integer value of a `w`-bit classical register (bit 0 is the least
significant bit, the library's convention). -/
def cregVal (w : ℕ) (creg : ℕ → Bool) : ℕ :=
  ∑ i ∈ range w, if creg i then 2 ^ i else 0

/-- The printed bitstring of a `w`-bit classical register: bit `w-1` first,
bit `0` last, as the library renders measurement outcomes. -/
def cregString (w : ℕ) (creg : ℕ → Bool) : String :=
  String.join (((List.range w).reverse).map fun i => if creg i then "1" else "0")

/-- A pure (conditional-free) gate of the three circuits. -/
inductive Gate
  | h (q : ℕ)
  | x (q : ℕ)
  | z (q : ℕ)
  | cx (c t : ℕ)
  | cz (c t : ℕ)
  | ccx (c1 c2 t : ℕ)
  | init1 (a b : ℂ) (q : ℕ)

/-- One circuit operation: a gate, a barrier (no-op), a measurement of a
qubit into a classical bit, or a gate conditioned on the whole classical
register holding a given value (the script's `if_test`). -/
inductive Op
  | gate (g : Gate)
  | barrier
  | measure (q c : ℕ)
  | cond (v : ℕ) (g : Gate)

/-- Action of a pure gate on a state vector. -/
def applyGate : Gate → (ℕ → ℂ) → (ℕ → ℂ)
  | Gate.h q => applyH q
  | Gate.x q => applyX q
  | Gate.z q => applyZ q
  | Gate.cx c t => applyCX c t
  | Gate.cz c t => applyCZ c t
  | Gate.ccx c1 c2 t => applyCCX c1 c2 t
  | Gate.init1 a b q => applyInit1 a b q

/-- The in-flight data of one shot: the state vector, the classical
register, and the accumulated probability weight of the sampled branch. -/
structure Shot where
  sv : ℕ → ℂ
  creg : ℕ → Bool
  weight : ℝ

/-- Execute a circuit for one shot, on `n` qubits with a `w`-bit classical
register.  `outs` lists the sampled measurement outcomes in program order:
each measurement consumes the next entry, multiplies the branch weight by
its Born probability, collapses the state and writes the classical bit.
A conditioned gate reads the classical register at its own execution time
(hence strictly after the measurements that wrote it) and is applied
exactly when the register value equals the target, and skipped otherwise. -/
def runOps (n w : ℕ) : List Op → List Bool → Shot → Shot
  | [], _, st => st
  | Op.gate g :: rest, outs, st => runOps n w rest outs { st with sv := applyGate g st.sv }
  | Op.barrier :: rest, outs, st => runOps n w rest outs st
  | Op.measure q c :: rest, outs, st =>
      runOps n w rest outs.tail
        { sv := collapse n q outs.headI st.sv
          creg := Function.update st.creg c outs.headI
          weight := st.weight * measProb n q outs.headI st.sv }
  | Op.cond v g :: rest, outs, st =>
      runOps n w rest outs
        (if cregVal w st.creg = v then { st with sv := applyGate g st.sv } else st)

/-- The all-zero computational-basis state `|0…0⟩`. -/
def basis0 : ℕ → ℂ := fun i => if i = 0 then 1 else 0

/-- A fresh shot: state `|0…0⟩`, cleared classical register, weight 1. -/
def shot0 : Shot := { sv := basis0, creg := fun _ => false, weight := 1 }

/-- The Bell-state circuit of `BellStateExample.py`: Hadamard on qubit 0,
CNOT with control 0 and target 1, then measurement of qubit 0 into
classical bit 0 and qubit 1 into classical bit 1. -/
def bellOps : List Op :=
  [Op.gate (Gate.h 0), Op.gate (Gate.cx 0 1), Op.measure 0 0, Op.measure 1 1]

/-- One shot of the Bell circuit with sampled measurement outcomes `m0, m1`. -/
def runBell (m0 m1 : Bool) : Shot := runOps 2 2 bellOps [m0, m1] shot0

/-- The bitstring recorded for one shot of a two-bit-register circuit. -/
def outString (st : Shot) : String := cregString 2 st.creg

/-! ### Bitwise index helpers -/

lemma bflip_lt {n q i : ℕ} (hq : q < n) (hi : i < 2 ^ n) : bflip q i < 2 ^ n :=
  Nat.bitwise_lt hi (Nat.pow_lt_pow_right one_lt_two hq)

lemma bflip_ge {n q i : ℕ} (hq : q < n) (hi : 2 ^ n ≤ i) : 2 ^ n ≤ bflip q i := by
  by_contra hc
  push_neg at hc
  have h3 : bflip q i ^^^ 2 ^ q < 2 ^ n :=
    Nat.bitwise_lt hc (Nat.pow_lt_pow_right one_lt_two hq)
  rw [bflip, Nat.xor_cancel_right] at h3
  omega

lemma bflip_bflip (q i : ℕ) : bflip q (bflip q i) = i := Nat.xor_cancel_right _ _

lemma qbit_bflip_self (q i : ℕ) : qbit q (bflip q i) = !(qbit q i) := by
  simp [qbit, bflip, Nat.testBit_xor, Nat.testBit_two_pow_self]

lemma qbit_bflip_ne {c q : ℕ} (h : c ≠ q) (i : ℕ) : qbit c (bflip q i) = qbit c i := by
  simp [qbit, bflip, Nat.testBit_xor, Nat.testBit_two_pow_of_ne fun hh => h hh.symm]

lemma bflip_ne (q i : ℕ) : bflip q i ≠ i := by
  intro h
  have h0 : i ^^^ 2 ^ q = i ^^^ 0 := by
    rw [Nat.xor_zero]; exact h
  exact pow_ne_zero q two_ne_zero (Nat.xor_right_injective h0)

/-! ### Scalar helpers for the Hadamard normalization -/

lemma sqrt2C_ne : sqrt2C ≠ 0 := by
  simp only [sqrt2C, ne_eq, Complex.ofReal_eq_zero]
  positivity

lemma sqrt2C_mul_self : sqrt2C * sqrt2C = 2 := by
  rw [sqrt2C, ← Complex.ofReal_mul, Real.mul_self_sqrt (by norm_num)]
  norm_num

lemma normSq_sqrt2C : Complex.normSq sqrt2C = 2 := by
  rw [sqrt2C, Complex.normSq_ofReal, Real.mul_self_sqrt (by norm_num)]

/-! ### The Bell circuit, step by step -/

/-- State after the Hadamard on qubit 0: `(|00⟩ + |01⟩)/√2`. -/
def bsv1 : ℕ → ℂ := fun i =>
  if i = 0 then 1 / sqrt2C else if i = 1 then 1 / sqrt2C else 0

/-- State after the CNOT: the Bell state `(|00⟩ + |11⟩)/√2`. -/
def bsv2 : ℕ → ℂ := fun i =>
  if i = 0 then 1 / sqrt2C else if i = 3 then 1 / sqrt2C else 0

lemma basis0_ge {i : ℕ} (hi : 1 ≤ i) : basis0 i = 0 := by
  unfold basis0; split_ifs <;> first | rfl | omega

lemma bsv1_ge {i : ℕ} (hi : 4 ≤ i) : bsv1 i = 0 := by
  unfold bsv1; split_ifs <;> first | rfl | omega

lemma bsv2_ge {i : ℕ} (hi : 4 ≤ i) : bsv2 i = 0 := by
  unfold bsv2; split_ifs <;> first | rfl | omega

lemma bell_step1 : applyH 0 basis0 = bsv1 := by
  funext i
  by_cases hi : i < 4
  · interval_cases i <;> simp +decide [applyH, qbit, bflip, basis0, bsv1]
  · push_neg at hi
    have h1 : 4 ≤ bflip 0 i := bflip_ge (n := 2) (by norm_num) hi
    rw [applyH, basis0_ge (by omega), basis0_ge (by omega), bsv1_ge hi]
    split <;> simp

lemma bell_step2 : applyCX 0 1 bsv1 = bsv2 := by
  funext i
  by_cases hi : i < 4
  · interval_cases i <;> simp +decide [applyCX, qbit, bflip, bsv1, bsv2]
  · push_neg at hi
    have h1 : 4 ≤ bflip 1 i := bflip_ge (n := 2) (by norm_num) hi
    rw [applyCX, bsv2_ge hi]
    split
    · exact bsv1_ge h1
    · exact bsv1_ge (by omega)

/-- The basis state `|11⟩` (index 3) of the two-qubit register. -/
def basis3 : ℕ → ℂ := fun i => if i = 3 then 1 else 0

lemma basis3_ge {i : ℕ} (hi : 4 ≤ i) : basis3 i = 0 := by
  unfold basis3; split_ifs <;> first | rfl | omega

lemma bell_measProb0 (b : Bool) : measProb 2 0 b bsv2 = 1 / 2 := by
  cases b <;>
    simp +decide [measProb, Finset.sum_range_succ, qbit, bsv2,
      Complex.normSq_div, normSq_sqrt2C]

lemma bell_collapse_f : collapse 2 0 false bsv2 = basis0 := by
  have hs : ((Real.sqrt (measProb 2 0 false bsv2) : ℝ) : ℂ) = sqrt2C⁻¹ := by
    rw [bell_measProb0, show (1 / 2 : ℝ) = 2⁻¹ by norm_num, Real.sqrt_inv,
      Complex.ofReal_inv, sqrt2C]
  have hv : sqrt2C⁻¹ * sqrt2C = 1 := inv_mul_cancel₀ sqrt2C_ne
  have hv2 : sqrt2C * sqrt2C⁻¹ = 1 := mul_inv_cancel₀ sqrt2C_ne
  funext i
  unfold collapse
  rw [hs]
  by_cases hi : i < 4
  · interval_cases i <;> simp +decide [qbit, bsv2, basis0, div_eq_mul_inv, one_mul, inv_inv, one_div, hv, hv2]
  · push_neg at hi
    rw [basis0_ge (by omega)]
    split
    · rw [bsv2_ge (by omega), zero_div]
    · rfl

lemma bell_collapse_t : collapse 2 0 true bsv2 = basis3 := by
  have hs : ((Real.sqrt (measProb 2 0 true bsv2) : ℝ) : ℂ) = sqrt2C⁻¹ := by
    rw [bell_measProb0, show (1 / 2 : ℝ) = 2⁻¹ by norm_num, Real.sqrt_inv,
      Complex.ofReal_inv, sqrt2C]
  have hv : sqrt2C⁻¹ * sqrt2C = 1 := inv_mul_cancel₀ sqrt2C_ne
  have hv2 : sqrt2C * sqrt2C⁻¹ = 1 := mul_inv_cancel₀ sqrt2C_ne
  funext i
  unfold collapse
  rw [hs]
  by_cases hi : i < 4
  · interval_cases i <;> simp +decide [qbit, bsv2, basis3, div_eq_mul_inv, one_mul, inv_inv, one_div, hv, hv2]
  · push_neg at hi
    rw [basis3_ge (by omega)]
    split
    · rw [bsv2_ge (by omega), zero_div]
    · rfl

lemma bell_measProb1_basis0 (b : Bool) : measProb 2 1 b basis0 = if b then 0 else 1 := by
  cases b <;> simp +decide [measProb, Finset.sum_range_succ, qbit, basis0]

lemma bell_measProb1_basis3 (b : Bool) : measProb 2 1 b basis3 = if b then 1 else 0 := by
  cases b <;> simp +decide [measProb, Finset.sum_range_succ, qbit, basis3]

lemma runBell_creg (m0 m1 : Bool) :
    (runBell m0 m1).creg 0 = m0 ∧ (runBell m0 m1).creg 1 = m1 := by
  unfold runBell bellOps
  simp [runOps, Function.update]

lemma runBell_weight (m0 m1 : Bool) :
    (runBell m0 m1).weight = if m0 = m1 then 1 / 2 else 0 := by
  cases m0 <;> cases m1 <;>
  · unfold runBell bellOps
    simp only [runOps, applyGate, List.headI, List.tail_cons, shot0]
    rw [bell_step1, bell_step2]
    first
      | rw [bell_collapse_f, bell_measProb0, bell_measProb1_basis0]
      | rw [bell_collapse_t, bell_measProb0, bell_measProb1_basis3]
    norm_num

lemma outString_eval (st : Shot) :
    outString st = (if st.creg 1 then "1" else "0") ++ (if st.creg 0 then "1" else "0") := by
  unfold outString cregString
  cases h0 : st.creg 0 <;> cases h1 : st.creg 1 <;>
    simp [List.range_succ, h0, h1] <;> rfl

/-- C2: every shot of the Bell circuit (H on qubit 0, CNOT 0→1, measure
both) yields the bitstring "00" or "11", never "01" or "10": the exact
distribution gives each of "00" and "11" probability 1/2 and the crossed
outcomes probability 0, so over any list of sampled shots (each with
positive Born weight) the histogram's key set is a subset of {"00", "11"}. -/
theorem bell_histogram_only_00_11 :
    (runBell false false).weight = 1 / 2 ∧
    (runBell true true).weight = 1 / 2 ∧
    (runBell true false).weight = 0 ∧
    (runBell false true).weight = 0 ∧
    (∀ m0 m1 : Bool, (runBell m0 m1).weight ≠ 0 →
      outString (runBell m0 m1) = "00" ∨ outString (runBell m0 m1) = "11") ∧
    (∀ shots : List (Bool × Bool),
      (∀ p ∈ shots, (runBell p.1 p.2).weight ≠ 0) →
      ∀ s ∈ (shots.map fun p => outString (runBell p.1 p.2)).toFinset,
        s = "00" ∨ s = "11") := by
  have hmain : ∀ m0 m1 : Bool, (runBell m0 m1).weight ≠ 0 →
      outString (runBell m0 m1) = "00" ∨ outString (runBell m0 m1) = "11" := by
    intro m0 m1 hw
    have hc := runBell_creg m0 m1
    have ho := outString_eval (runBell m0 m1)
    rw [runBell_weight] at hw
    cases m0 <;> cases m1 <;> simp_all
  refine ⟨by rw [runBell_weight]; norm_num, by rw [runBell_weight]; norm_num,
    by rw [runBell_weight]; norm_num, by rw [runBell_weight]; norm_num, hmain, ?_⟩
  intro shots hall s hs
  rw [List.mem_toFinset, List.mem_map] at hs
  obtain ⟨p, hp, rfl⟩ := hs
  exact hmain p.1 p.2 (hall p hp)

/-- Closed witness for C2: a concrete two-shot run, with the theorem's
hypotheses discharged at the sampled outcomes (0,0) and (1,1). -/
theorem bell_histogram_witness :
    outString (runBell false false) = "00" ∨ outString (runBell false false) = "11" := by
  have h := bell_histogram_only_00_11
  exact h.2.2.2.2.1 false false (by rw [h.1]; norm_num)

/-! ### Generic out-of-range (tail) lemmas for gate applications -/

lemma applyH_tail {q n : ℕ} {v : ℕ → ℂ} (hq : q < n) (hv : ∀ j, 2 ^ n ≤ j → v j = 0)
    {i : ℕ} (hi : 2 ^ n ≤ i) : applyH q v i = 0 := by
  rw [applyH, hv i hi, hv (bflip q i) (bflip_ge hq hi)]
  split <;> simp

lemma applyX_tail {q n : ℕ} {v : ℕ → ℂ} (hq : q < n) (hv : ∀ j, 2 ^ n ≤ j → v j = 0)
    {i : ℕ} (hi : 2 ^ n ≤ i) : applyX q v i = 0 := by
  rw [applyX, hv (bflip q i) (bflip_ge hq hi)]

lemma applyZ_tail {q : ℕ} {v : ℕ → ℂ} {n : ℕ} (hv : ∀ j, 2 ^ n ≤ j → v j = 0)
    {i : ℕ} (hi : 2 ^ n ≤ i) : applyZ q v i = 0 := by
  rw [applyZ, hv i hi]
  split <;> simp

lemma applyCX_tail {c t n : ℕ} {v : ℕ → ℂ} (ht : t < n) (hv : ∀ j, 2 ^ n ≤ j → v j = 0)
    {i : ℕ} (hi : 2 ^ n ≤ i) : applyCX c t v i = 0 := by
  rw [applyCX, hv i hi, hv (bflip t i) (bflip_ge ht hi)]
  split <;> rfl

lemma applyCZ_tail {c t n : ℕ} {v : ℕ → ℂ} (hv : ∀ j, 2 ^ n ≤ j → v j = 0)
    {i : ℕ} (hi : 2 ^ n ≤ i) : applyCZ c t v i = 0 := by
  rw [applyCZ, hv i hi]
  split <;> simp

lemma applyInit1_tail {a b : ℂ} {q n : ℕ} {v : ℕ → ℂ} (hq : q < n)
    (hv : ∀ j, 2 ^ n ≤ j → v j = 0) {i : ℕ} (hi : 2 ^ n ≤ i) : applyInit1 a b q v i = 0 := by
  rw [applyInit1, hv i hi, hv (bflip q i) (bflip_ge hq hi)]
  split <;> simp

/-! ### The Grover circuit of `GroversSearchExample.py` -/

/-- The iteration count the script computes: `int(np.floor(pi/4 * sqrt(2**n)))`,
a function of the qubit count `n`. -/
def iterations (n : ℕ) : ℤ := ⌊Real.pi / 4 * Real.sqrt ((2 : ℝ) ^ n)⌋

/-- The script's qubit count. -/
def groverN : ℕ := 2

/-- The initial layer of Hadamards creating the uniform superposition. -/
def grover_hLayer : List Op := [Op.gate (Gate.h 0), Op.gate (Gate.h 1)]

/-- The oracle marking `|11⟩`: a single controlled-Z. -/
def groverOracle : List Op := [Op.gate (Gate.cz 0 1)]

/-- The diffuser for 2 qubits, gate for gate as the script builds it
(`mct` with the single control 0 is a controlled-NOT). -/
def groverDiffuser : List Op :=
  [Op.gate (Gate.h 0), Op.gate (Gate.h 1), Op.gate (Gate.x 0), Op.gate (Gate.x 1),
   Op.gate (Gate.h 1), Op.gate (Gate.cx 0 1), Op.gate (Gate.h 1),
   Op.gate (Gate.x 0), Op.gate (Gate.x 1), Op.gate (Gate.h 0), Op.gate (Gate.h 1)]

/-- One Grover iteration: oracle, then diffuser, then a barrier. -/
def groverBlock : List Op := groverOracle ++ groverDiffuser ++ [Op.barrier]

/-- The whole Grover circuit: uniform superposition, then the block repeated
the computed number of times, then measurement of both qubits. -/
def groverOps : List Op :=
  grover_hLayer ++ [Op.barrier] ++
    (List.replicate (iterations groverN).toNat groverBlock).flatten ++
    [Op.measure 0 0, Op.measure 1 1]

/-- One shot of the Grover circuit with sampled outcomes `m0, m1`. -/
def runGrover (m0 m1 : Bool) : Shot := runOps 2 2 groverOps [m0, m1] shot0

lemma iterations_two : iterations 2 = 1 := by
  have h4 : Real.sqrt ((2 : ℝ) ^ (2 : ℕ)) = 2 := by
    rw [show ((2 : ℝ) ^ (2 : ℕ)) = 2 ^ 2 by norm_num, Real.sqrt_sq (by norm_num)]
  unfold iterations
  rw [h4, Int.floor_eq_iff]
  constructor
  · push_cast
    nlinarith [Real.pi_gt_three]
  · push_cast
    nlinarith [Real.pi_lt_four]

lemma groverOps_eq :
    groverOps = grover_hLayer ++ [Op.barrier] ++ groverBlock ++
      [Op.measure 0 0, Op.measure 1 1] := by
  unfold groverOps
  rw [show (iterations groverN).toNat = 1 by rw [groverN, iterations_two]; rfl]
  simp

/-- Uniform superposition `(|00⟩+|01⟩+|10⟩+|11⟩)/2`. -/
def gv2 : ℕ → ℂ := fun i => if i < 4 then 2⁻¹ else 0

/-- State after the oracle: amplitude of `|11⟩` negated. -/
def gv3 : ℕ → ℂ := fun i => if i = 3 then -2⁻¹ else if i < 4 then 2⁻¹ else 0

def gv6 : ℕ → ℂ := fun i => if i = 2 then -2⁻¹ else if i < 4 then 2⁻¹ else 0

def gv7 : ℕ → ℂ := fun i => if i = 0 then -2⁻¹ else if i < 4 then 2⁻¹ else 0

def gv8 : ℕ → ℂ := fun i => if i = 1 then 1 / sqrt2C else if i = 2 then -(1 / sqrt2C) else 0

def gv9 : ℕ → ℂ := fun i => if i = 2 then -(1 / sqrt2C) else if i = 3 then 1 / sqrt2C else 0

def gv10 : ℕ → ℂ := fun i => if i = 0 then -2⁻¹ else if i = 3 then -2⁻¹ else if i < 4 then 2⁻¹ else 0

def gv11 : ℕ → ℂ := fun i => if i = 1 then -2⁻¹ else if i = 2 then -2⁻¹ else if i < 4 then 2⁻¹ else 0

def gv13 : ℕ → ℂ := fun i => if i = 1 then -(1 / sqrt2C) else if i = 3 then 1 / sqrt2C else 0

/-- The final pre-measurement Grover state: `-|11⟩`. -/
def gvFin : ℕ → ℂ := fun i => if i = 3 then -1 else 0

lemma bsv1_zero : ∀ j, 4 ≤ j → bsv1 j = 0 := fun _ hj => bsv1_ge hj

lemma bsv2_zero : ∀ j, 4 ≤ j → bsv2 j = 0 := fun _ hj => bsv2_ge hj

lemma basis0_zero4 : ∀ j, 4 ≤ j → basis0 j = 0 := fun _ hj => basis0_ge (by omega)

lemma gv2_zero : ∀ j, 4 ≤ j → gv2 j = 0 := by
  intro j hj; unfold gv2; split_ifs <;> first | rfl | omega

lemma gv3_zero : ∀ j, 4 ≤ j → gv3 j = 0 := by
  intro j hj; unfold gv3; split_ifs <;> first | rfl | omega

lemma gv6_zero : ∀ j, 4 ≤ j → gv6 j = 0 := by
  intro j hj; unfold gv6; split_ifs <;> first | rfl | omega

lemma gv7_zero : ∀ j, 4 ≤ j → gv7 j = 0 := by
  intro j hj; unfold gv7; split_ifs <;> first | rfl | omega

lemma gv8_zero : ∀ j, 4 ≤ j → gv8 j = 0 := by
  intro j hj; unfold gv8; split_ifs <;> first | rfl | omega

lemma gv9_zero : ∀ j, 4 ≤ j → gv9 j = 0 := by
  intro j hj; unfold gv9; split_ifs <;> first | rfl | omega

lemma gv10_zero : ∀ j, 4 ≤ j → gv10 j = 0 := by
  intro j hj; unfold gv10; split_ifs <;> first | rfl | omega

lemma gv11_zero : ∀ j, 4 ≤ j → gv11 j = 0 := by
  intro j hj; unfold gv11; split_ifs <;> first | rfl | omega

lemma gv13_zero : ∀ j, 4 ≤ j → gv13 j = 0 := by
  intro j hj; unfold gv13; split_ifs <;> first | rfl | omega

lemma gvFin_zero : ∀ j, 4 ≤ j → gvFin j = 0 := by
  intro j hj; unfold gvFin; split_ifs <;> first | rfl | omega

lemma inv_sqrt2C_div : sqrt2C⁻¹ / sqrt2C = 2⁻¹ := by
  rw [div_eq_mul_inv, ← mul_inv, sqrt2C_mul_self]

lemma grover_step2 : applyH 1 bsv1 = gv2 := by
  funext i
  by_cases hi : i < 4
  · interval_cases i <;>
      simp +decide [applyH, qbit, bflip, bsv1, gv2, div_div, sqrt2C_mul_self, one_div, inv_sqrt2C_div]
  · push_neg at hi
    rw [applyH_tail (n := 2) (by norm_num) bsv1_zero hi, gv2_zero i hi]

lemma neg_one_div_sqrt2C : (-1 : ℂ) / sqrt2C = -sqrt2C⁻¹ := by
  rw [neg_div, one_div]

lemma neg_two_inv_div_sqrt2C : (-sqrt2C⁻¹ - sqrt2C⁻¹) / sqrt2C = -1 := by
  have h1 : (-sqrt2C⁻¹ - sqrt2C⁻¹) / sqrt2C
      = -(sqrt2C⁻¹ / sqrt2C) - sqrt2C⁻¹ / sqrt2C := by ring
  rw [h1, inv_sqrt2C_div]
  norm_num

lemma grover_step3 : applyCZ 0 1 gv2 = gv3 := by
  funext i
  by_cases hi : i < 4
  · interval_cases i <;>
      simp +decide [applyCZ, qbit, bflip, gv2, gv3, div_div, sqrt2C_mul_self, one_div,
        inv_sqrt2C_div, neg_div]
  · push_neg at hi
    rw [applyCZ_tail (n := 2) gv2_zero hi, gv3_zero i hi]

lemma grover_step4 : applyH 0 gv3 = bsv2 := by
  funext i
  by_cases hi : i < 4
  · interval_cases i <;>
      simp +decide [applyH, qbit, bflip, gv3, bsv2, div_div, sqrt2C_mul_self, one_div,
        inv_sqrt2C_div, neg_div, neg_one_div_sqrt2C, neg_two_inv_div_sqrt2C] <;>
      norm_num [neg_one_div_sqrt2C, neg_two_inv_div_sqrt2C]
  · push_neg at hi
    rw [applyH_tail (n := 2) (by norm_num) gv3_zero hi, bsv2_zero i hi]

lemma grover_step5 : applyH 1 bsv2 = gv3 := by
  funext i
  by_cases hi : i < 4
  · interval_cases i <;>
      simp +decide [applyH, qbit, bflip, bsv2, gv3, div_div, sqrt2C_mul_self, one_div,
        inv_sqrt2C_div, neg_div, neg_one_div_sqrt2C, neg_two_inv_div_sqrt2C] <;>
      norm_num [neg_one_div_sqrt2C, neg_two_inv_div_sqrt2C]
  · push_neg at hi
    rw [applyH_tail (n := 2) (by norm_num) bsv2_zero hi, gv3_zero i hi]

lemma grover_step6 : applyX 0 gv3 = gv6 := by
  funext i
  by_cases hi : i < 4
  · interval_cases i <;> simp +decide [applyX, qbit, bflip, gv3, gv6]
  · push_neg at hi
    rw [applyX_tail (n := 2) (by norm_num) gv3_zero hi, gv6_zero i hi]

lemma grover_step7 : applyX 1 gv6 = gv7 := by
  funext i
  by_cases hi : i < 4
  · interval_cases i <;> simp +decide [applyX, qbit, bflip, gv6, gv7]
  · push_neg at hi
    rw [applyX_tail (n := 2) (by norm_num) gv6_zero hi, gv7_zero i hi]

lemma grover_step8 : applyH 1 gv7 = gv8 := by
  funext i
  by_cases hi : i < 4
  · interval_cases i <;>
      simp +decide [applyH, qbit, bflip, gv7, gv8, div_div, sqrt2C_mul_self, one_div,
        inv_sqrt2C_div, neg_div, neg_one_div_sqrt2C, neg_two_inv_div_sqrt2C] <;>
      norm_num [neg_one_div_sqrt2C, neg_two_inv_div_sqrt2C]
  · push_neg at hi
    rw [applyH_tail (n := 2) (by norm_num) gv7_zero hi, gv8_zero i hi]

lemma grover_step9 : applyCX 0 1 gv8 = gv9 := by
  funext i
  by_cases hi : i < 4
  · interval_cases i <;> simp +decide [applyCX, qbit, bflip, gv8, gv9]
  · push_neg at hi
    rw [applyCX_tail (n := 2) (by norm_num) gv8_zero hi, gv9_zero i hi]

lemma grover_step10 : applyH 1 gv9 = gv10 := by
  funext i
  by_cases hi : i < 4
  · interval_cases i <;>
      simp +decide [applyH, qbit, bflip, gv9, gv10, div_div, sqrt2C_mul_self, one_div,
        inv_sqrt2C_div, neg_div, neg_one_div_sqrt2C, neg_two_inv_div_sqrt2C] <;>
      norm_num [neg_one_div_sqrt2C, neg_two_inv_div_sqrt2C]
  · push_neg at hi
    rw [applyH_tail (n := 2) (by norm_num) gv9_zero hi, gv10_zero i hi]

lemma grover_step11 : applyX 0 gv10 = gv11 := by
  funext i
  by_cases hi : i < 4
  · interval_cases i <;> simp +decide [applyX, qbit, bflip, gv10, gv11]
  · push_neg at hi
    rw [applyX_tail (n := 2) (by norm_num) gv10_zero hi, gv11_zero i hi]

lemma grover_step12 : applyX 1 gv11 = gv10 := by
  funext i
  by_cases hi : i < 4
  · interval_cases i <;> simp +decide [applyX, qbit, bflip, gv11, gv10]
  · push_neg at hi
    rw [applyX_tail (n := 2) (by norm_num) gv11_zero hi, gv10_zero i hi]

lemma grover_step13 : applyH 0 gv10 = gv13 := by
  funext i
  by_cases hi : i < 4
  · interval_cases i <;>
      simp +decide [applyH, qbit, bflip, gv10, gv13, div_div, sqrt2C_mul_self, one_div,
        inv_sqrt2C_div, neg_div, neg_one_div_sqrt2C, neg_two_inv_div_sqrt2C] <;>
      norm_num [neg_one_div_sqrt2C, neg_two_inv_div_sqrt2C]
  · push_neg at hi
    rw [applyH_tail (n := 2) (by norm_num) gv10_zero hi, gv13_zero i hi]

lemma grover_step14 : applyH 1 gv13 = gvFin := by
  funext i
  by_cases hi : i < 4
  · interval_cases i <;>
      simp +decide [applyH, qbit, bflip, gv13, gvFin, div_div, sqrt2C_mul_self, one_div,
        inv_sqrt2C_div, neg_div, neg_one_div_sqrt2C, neg_two_inv_div_sqrt2C] <;>
      norm_num [neg_one_div_sqrt2C, neg_two_inv_div_sqrt2C]
  · push_neg at hi
    rw [applyH_tail (n := 2) (by norm_num) gv13_zero hi, gvFin_zero i hi]

lemma grover_measProb0 (b : Bool) : measProb 2 0 b gvFin = if b then 1 else 0 := by
  cases b <;> simp +decide [measProb, Finset.sum_range_succ, qbit, gvFin]

lemma grover_measProb1 (b : Bool) : measProb 2 1 b gvFin = if b then 1 else 0 := by
  cases b <;> simp +decide [measProb, Finset.sum_range_succ, qbit, gvFin]

lemma grover_collapse0 : collapse 2 0 true gvFin = gvFin := by
  funext i
  unfold collapse
  rw [grover_measProb0, if_pos rfl, Real.sqrt_one, Complex.ofReal_one, div_one]
  by_cases hi : i < 4
  · interval_cases i <;> simp +decide [qbit, gvFin]
  · push_neg at hi
    rw [gvFin_zero i (by omega)]
    split <;> rfl

lemma grover_collapse1 : collapse 2 1 true gvFin = gvFin := by
  funext i
  unfold collapse
  rw [grover_measProb1, if_pos rfl, Real.sqrt_one, Complex.ofReal_one, div_one]
  by_cases hi : i < 4
  · interval_cases i <;> simp +decide [qbit, gvFin]
  · push_neg at hi
    rw [gvFin_zero i (by omega)]
    split <;> rfl

lemma runGrover_expand (m0 m1 : Bool) :
    runGrover m0 m1 = runOps 2 2 [Op.measure 0 0, Op.measure 1 1] [m0, m1]
      { sv := gvFin, creg := fun _ => false, weight := 1 } := by
  unfold runGrover
  rw [groverOps_eq]
  simp only [grover_hLayer, groverOracle, groverDiffuser, groverBlock,
    List.append_assoc, List.cons_append, List.nil_append, runOps, applyGate, shot0]
  rw [bell_step1, grover_step2, grover_step3, grover_step4, grover_step5, grover_step6,
    grover_step7, grover_step8, grover_step9, grover_step10, grover_step11, grover_step12,
    grover_step13, grover_step14]

/-- C3: for the 2-qubit Grover circuit with marked state `|11⟩`, run with the
analytically optimal iteration count (one oracle-plus-diffuser round), the
exact single-shot outcome distribution gives the marked bitstring "11"
probability 1 — in particular strictly more than 0.9 — and every other
outcome probability 0. -/
theorem grover_marked_state_probability :
    (runGrover true true).weight = 1 ∧
    (9 : ℝ) / 10 < (runGrover true true).weight ∧
    outString (runGrover true true) = "11" ∧
    (runGrover false false).weight = 0 ∧
    (runGrover false true).weight = 0 ∧
    (runGrover true false).weight = 0 := by
  have htt : (runGrover true true).weight = 1 := by
    rw [runGrover_expand]
    simp only [runOps, List.headI, List.tail_cons]
    rw [grover_collapse0, grover_measProb0, grover_measProb1]
    norm_num
  refine ⟨htt, by rw [htt]; norm_num, ?_, ?_, ?_, ?_⟩
  · rw [outString_eval, runGrover_expand]
    simp [runOps, Function.update]
  · rw [runGrover_expand]
    simp only [runOps, List.headI, List.tail_cons]
    rw [grover_measProb0]
    norm_num
  · rw [runGrover_expand]
    simp only [runOps, List.headI, List.tail_cons]
    rw [grover_measProb0]
    norm_num
  · rw [runGrover_expand]
    simp only [runOps, List.headI, List.tail_cons]
    rw [grover_collapse0, grover_measProb0, grover_measProb1]
    norm_num

/-- C5: the Grover script computes its iteration count as
`floor((pi/4)*sqrt(2^n))` — a function of the qubit count — rather than
hardcoding it; for the script's `n = 2` that value is 1, and the circuit
contains the oracle-plus-diffuser block appended exactly that once between
the Hadamard layer and the measurements. -/
theorem grover_iterations_computed :
    iterations 2 = 1 ∧
    groverOps = grover_hLayer ++ [Op.barrier] ++
      (groverOracle ++ groverDiffuser ++ [Op.barrier]) ++
      [Op.measure 0 0, Op.measure 1 1] :=
  ⟨iterations_two, by rw [groverOps_eq, groverBlock]⟩

/-! ### The teleportation circuit of `QuantumTeleportationExample.py`

Qubit 0 is the source, qubit 1 is the sender's half of the entangled pair,
qubit 2 is the receiver's qubit.  Classical bit 0 receives the measurement
of the source qubit, classical bit 1 the measurement of the sender's
entangled qubit.  The script then applies X on the receiver qubit under
`if_test((c, 1))` and Z under `if_test((c, 2))`, conditions on the value of
the whole two-bit register. -/

def teleportOps (a b : ℂ) : List Op :=
  [Op.gate (Gate.init1 a b 0), Op.barrier,
   Op.gate (Gate.h 1), Op.gate (Gate.cx 1 2), Op.barrier,
   Op.gate (Gate.cx 0 1), Op.gate (Gate.h 0), Op.barrier,
   Op.measure 0 0, Op.measure 1 1, Op.barrier,
   Op.cond 1 (Gate.x 2), Op.cond 2 (Gate.z 2)]

/-- The teleportation circuit with the two classically conditioned
corrections removed. -/
def teleportOpsBare (a b : ℂ) : List Op :=
  [Op.gate (Gate.init1 a b 0), Op.barrier,
   Op.gate (Gate.h 1), Op.gate (Gate.cx 1 2), Op.barrier,
   Op.gate (Gate.cx 0 1), Op.gate (Gate.h 0), Op.barrier,
   Op.measure 0 0, Op.measure 1 1, Op.barrier]

/-- One shot of the teleportation circuit on source state `a·|0⟩ + b·|1⟩`
with sampled measurement outcomes `m0` (source qubit) and `m1` (sender's
entangled qubit). -/
def runTele (a b : ℂ) (m0 m1 : Bool) : Shot :=
  runOps 3 2 (teleportOps a b) [m0, m1] shot0

/-- State after preparing the source qubit. -/
def tsv1 (a b : ℂ) : ℕ → ℂ := fun i => if i = 0 then a else if i = 1 then b else 0

/-- State after the Hadamard on qubit 1. -/
def tsv2 (a b : ℂ) : ℕ → ℂ := fun i =>
  if i = 0 then a / sqrt2C else if i = 1 then b / sqrt2C
  else if i = 2 then a / sqrt2C else if i = 3 then b / sqrt2C else 0

/-- State after the CNOT 1→2 creating the entangled pair. -/
def tsv3 (a b : ℂ) : ℕ → ℂ := fun i =>
  if i = 0 then a / sqrt2C else if i = 1 then b / sqrt2C
  else if i = 6 then a / sqrt2C else if i = 7 then b / sqrt2C else 0

/-- State after the sender's CNOT 0→1. -/
def tsv4 (a b : ℂ) : ℕ → ℂ := fun i =>
  if i = 0 then a / sqrt2C else if i = 3 then b / sqrt2C
  else if i = 5 then b / sqrt2C else if i = 6 then a / sqrt2C else 0

/-- State after the sender's Hadamard on qubit 0, just before measurement. -/
def tsv5 (a b : ℂ) : ℕ → ℂ := fun i =>
  if i = 0 then a / 2 else if i = 1 then a / 2
  else if i = 2 then b / 2 else if i = 3 then -(b / 2)
  else if i = 4 then b / 2 else if i = 5 then -(b / 2)
  else if i = 6 then a / 2 else if i = 7 then a / 2 else 0

/-- State after the measurement of qubit 0 gave `m0`. -/
def tsv6 (a b : ℂ) (m0 : Bool) : ℕ → ℂ := fun i =>
  if m0 then
    if i = 1 then a / sqrt2C else if i = 3 then -(b / sqrt2C)
    else if i = 5 then -(b / sqrt2C) else if i = 7 then a / sqrt2C else 0
  else
    if i = 0 then a / sqrt2C else if i = 2 then b / sqrt2C
    else if i = 4 then b / sqrt2C else if i = 6 then a / sqrt2C else 0

/-- State after both measurements (outcomes `m0, m1`), before any
conditioned correction.  The receiver qubit (bit 2 of the index) holds, per
branch: (0,0) ↦ `(a,b)`; (1,0) ↦ `(a,-b)`; (0,1) ↦ `(b,a)`; (1,1) ↦ `(-b,a)`. -/
def tsv7 (a b : ℂ) (m0 m1 : Bool) : ℕ → ℂ := fun i =>
  if m0 then
    if m1 then (if i = 3 then -b else if i = 7 then a else 0)
    else (if i = 1 then a else if i = 5 then -b else 0)
  else
    if m1 then (if i = 2 then b else if i = 6 then a else 0)
    else (if i = 0 then a else if i = 4 then b else 0)

/-- Final state of the shot, after the script's conditioned corrections
(X exactly when the register value is 1, Z exactly when it is 2). -/
def teleFinal (a b : ℂ) (m0 m1 : Bool) : ℕ → ℂ := fun i =>
  if m0 then
    if m1 then (if i = 3 then -b else if i = 7 then a else 0)
    else (if i = 1 then -b else if i = 5 then a else 0)
  else
    if m1 then (if i = 2 then b else if i = 6 then -a else 0)
    else (if i = 0 then a else if i = 4 then b else 0)

lemma tsv1_zero (a b : ℂ) : ∀ j, 8 ≤ j → tsv1 a b j = 0 := by
  intro j hj; unfold tsv1; split_ifs <;> first | rfl | omega

lemma tsv2_zero (a b : ℂ) : ∀ j, 8 ≤ j → tsv2 a b j = 0 := by
  intro j hj; unfold tsv2
  split_ifs <;> first | rfl | omega

lemma tsv3_zero (a b : ℂ) : ∀ j, 8 ≤ j → tsv3 a b j = 0 := by
  intro j hj; unfold tsv3
  split_ifs <;> first | rfl | omega

lemma tsv4_zero (a b : ℂ) : ∀ j, 8 ≤ j → tsv4 a b j = 0 := by
  intro j hj; unfold tsv4
  split_ifs <;> first | rfl | omega

lemma tsv5_zero (a b : ℂ) : ∀ j, 8 ≤ j → tsv5 a b j = 0 := by
  intro j hj; unfold tsv5
  split_ifs <;> first | rfl | omega

lemma tsv6_zero (a b : ℂ) (m0 : Bool) : ∀ j, 8 ≤ j → tsv6 a b m0 j = 0 := by
  intro j hj
  cases m0 <;>
    simp only [tsv6, Bool.false_eq_true, if_false, if_true] <;>
    split_ifs <;> first | rfl | omega

lemma tele_step1 (a b : ℂ) : applyInit1 a b 0 basis0 = tsv1 a b := by
  funext i
  by_cases hi : i < 8
  · interval_cases i <;> simp +decide [applyInit1, qbit, bflip, basis0, tsv1]
  · push_neg at hi
    rw [applyInit1_tail (n := 3) (by norm_num) (fun j hj => basis0_ge (by omega)) hi,
      tsv1_zero a b i hi]

lemma tele_step2 (a b : ℂ) : applyH 1 (tsv1 a b) = tsv2 a b := by
  funext i
  by_cases hi : i < 8
  · interval_cases i <;> simp +decide [applyH, qbit, bflip, tsv1, tsv2]
  · push_neg at hi
    rw [applyH_tail (n := 3) (by norm_num) (tsv1_zero a b) hi, tsv2_zero a b i hi]

lemma tele_step3 (a b : ℂ) : applyCX 1 2 (tsv2 a b) = tsv3 a b := by
  funext i
  by_cases hi : i < 8
  · interval_cases i <;> simp +decide [applyCX, qbit, bflip, tsv2, tsv3]
  · push_neg at hi
    rw [applyCX_tail (n := 3) (by norm_num) (tsv2_zero a b) hi, tsv3_zero a b i hi]

lemma tele_step4 (a b : ℂ) : applyCX 0 1 (tsv3 a b) = tsv4 a b := by
  funext i
  by_cases hi : i < 8
  · interval_cases i <;> simp +decide [applyCX, qbit, bflip, tsv3, tsv4]
  · push_neg at hi
    rw [applyCX_tail (n := 3) (by norm_num) (tsv3_zero a b) hi, tsv4_zero a b i hi]

lemma tele_step5 (a b : ℂ) : applyH 0 (tsv4 a b) = tsv5 a b := by
  funext i
  by_cases hi : i < 8
  · interval_cases i <;>
      simp +decide [applyH, qbit, bflip, tsv4, tsv5, div_div, sqrt2C_mul_self, neg_div]
  · push_neg at hi
    rw [applyH_tail (n := 3) (by norm_num) (tsv4_zero a b) hi, tsv5_zero a b i hi]

lemma normSq_twoC : Complex.normSq 2 = 4 := by
  norm_num [Complex.normSq_apply]

lemma div_sqrt2C_inv (x : ℂ) : x / sqrt2C⁻¹ = x * sqrt2C := by
  rw [div_eq_mul_inv, inv_inv]

lemma div_two_mul_sqrt2C (x : ℂ) : x / 2 * sqrt2C = x / sqrt2C := by
  rw [eq_div_iff sqrt2C_ne, mul_assoc, sqrt2C_mul_self]
  ring

lemma div_sqrt2C_mul_sqrt2C (x : ℂ) : x / sqrt2C * sqrt2C = x :=
  div_mul_cancel₀ x sqrt2C_ne

lemma tele_measProb0 (a b : ℂ) (hab : Complex.normSq a + Complex.normSq b = 1)
    (m0 : Bool) : measProb 3 0 m0 (tsv5 a b) = 1 / 2 := by
  cases m0 <;>
  · simp +decide [measProb, Finset.sum_range_succ, qbit, tsv5, Complex.normSq_div,
      Complex.normSq_neg, normSq_twoC]
    linarith

lemma tele_collapse0 (a b : ℂ) (hab : Complex.normSq a + Complex.normSq b = 1)
    (m0 : Bool) : collapse 3 0 m0 (tsv5 a b) = tsv6 a b m0 := by
  have hs : ((Real.sqrt (measProb 3 0 m0 (tsv5 a b)) : ℝ) : ℂ) = sqrt2C⁻¹ := by
    rw [tele_measProb0 a b hab m0, show (1 / 2 : ℝ) = 2⁻¹ by norm_num, Real.sqrt_inv,
      Complex.ofReal_inv, sqrt2C]
  funext i
  unfold collapse
  rw [hs]
  by_cases hi : i < 8
  · cases m0 <;> interval_cases i <;>
      simp +decide [qbit, tsv5, tsv6, div_sqrt2C_inv, div_two_mul_sqrt2C, neg_div, neg_mul]
  · push_neg at hi
    rw [tsv6_zero a b m0 i hi]
    split
    · rw [tsv5_zero a b i hi, zero_div]
    · rfl

lemma tele_measProb1 (a b : ℂ) (hab : Complex.normSq a + Complex.normSq b = 1)
    (m0 m1 : Bool) : measProb 3 1 m1 (tsv6 a b m0) = 1 / 2 := by
  cases m0 <;> cases m1 <;>
  · simp +decide [measProb, Finset.sum_range_succ, qbit, tsv6, Complex.normSq_div,
      Complex.normSq_neg, normSq_sqrt2C]
    linarith

lemma tsv7_zero (a b : ℂ) (m0 m1 : Bool) : ∀ j, 8 ≤ j → tsv7 a b m0 m1 j = 0 := by
  intro j hj
  cases m0 <;> cases m1 <;>
    simp only [tsv7, Bool.false_eq_true, if_false, if_true] <;>
    split_ifs <;> first | rfl | omega

lemma teleFinal_zero (a b : ℂ) (m0 m1 : Bool) : ∀ j, 8 ≤ j → teleFinal a b m0 m1 j = 0 := by
  intro j hj
  cases m0 <;> cases m1 <;>
    simp only [teleFinal, Bool.false_eq_true, if_false, if_true] <;>
    split_ifs <;> first | rfl | omega

lemma tele_collapse1 (a b : ℂ) (hab : Complex.normSq a + Complex.normSq b = 1)
    (m0 m1 : Bool) : collapse 3 1 m1 (tsv6 a b m0) = tsv7 a b m0 m1 := by
  have hs : ((Real.sqrt (measProb 3 1 m1 (tsv6 a b m0)) : ℝ) : ℂ) = sqrt2C⁻¹ := by
    rw [tele_measProb1 a b hab m0 m1, show (1 / 2 : ℝ) = 2⁻¹ by norm_num, Real.sqrt_inv,
      Complex.ofReal_inv, sqrt2C]
  funext i
  unfold collapse
  rw [hs]
  by_cases hi : i < 8
  · cases m0 <;> cases m1 <;> interval_cases i <;>
      simp +decide [qbit, tsv6, tsv7, div_sqrt2C_inv, div_sqrt2C_mul_sqrt2C, neg_mul, neg_div]
  · push_neg at hi
    rw [tsv7_zero a b m0 m1 i hi]
    split
    · rw [tsv6_zero a b m0 i hi, zero_div]
    · rfl

lemma tele_condX (a b : ℂ) : applyX 2 (tsv7 a b true false) = teleFinal a b true false := by
  funext i
  by_cases hi : i < 8
  · interval_cases i <;> simp +decide [applyX, qbit, bflip, tsv7, teleFinal]
  · push_neg at hi
    rw [applyX_tail (n := 3) (by norm_num) (tsv7_zero a b true false) hi,
      teleFinal_zero a b true false i hi]

lemma tele_condZ (a b : ℂ) : applyZ 2 (tsv7 a b false true) = teleFinal a b false true := by
  funext i
  by_cases hi : i < 8
  · interval_cases i <;> simp +decide [applyZ, qbit, bflip, tsv7, teleFinal]
  · push_neg at hi
    rw [applyZ_tail (n := 3) (tsv7_zero a b false true) hi,
      teleFinal_zero a b false true i hi]

lemma tsv7_eq_final_ff (a b : ℂ) : tsv7 a b false false = teleFinal a b false false := by
  funext i
  simp [tsv7, teleFinal]

lemma tsv7_eq_final_tt (a b : ℂ) : tsv7 a b true true = teleFinal a b true true := by
  funext i
  simp [tsv7, teleFinal]

lemma runTele_eval (a b : ℂ) (hab : Complex.normSq a + Complex.normSq b = 1)
    (m0 m1 : Bool) :
    (runTele a b m0 m1).sv = teleFinal a b m0 m1 ∧
    (runTele a b m0 m1).creg 0 = m0 ∧
    (runTele a b m0 m1).creg 1 = m1 ∧
    (runTele a b m0 m1).weight = 1 / 4 := by
  cases m0 <;> cases m1 <;>
  · unfold runTele teleportOps
    simp only [runOps, applyGate, List.headI, List.tail_cons, shot0]
    rw [tele_step1, tele_step2, tele_step3, tele_step4, tele_step5,
      tele_collapse0 a b hab, tele_measProb0 a b hab,
      tele_collapse1 a b hab, tele_measProb1 a b hab]
    refine ⟨?_, ?_, ?_, ?_⟩ <;>
      simp +decide [cregVal, Finset.sum_range_succ, Function.update,
        tele_condX, tele_condZ, tsv7_eq_final_ff, tsv7_eq_final_tt] <;>
      norm_num

lemma runTeleBare_sv (a b : ℂ) (hab : Complex.normSq a + Complex.normSq b = 1)
    (m0 m1 : Bool) :
    (runOps 3 2 (teleportOpsBare a b) [m0, m1] shot0).sv = tsv7 a b m0 m1 := by
  unfold teleportOpsBare
  simp only [runOps, applyGate, List.headI, List.tail_cons, shot0]
  rw [tele_step1, tele_step2, tele_step3, tele_step4, tele_step5,
    tele_collapse0 a b hab, tele_collapse1 a b hab]

/-- C4: conditional-execution semantics in the teleportation circuit.  For
every normalized source state and every pair of measurement outcomes, the
classical bits hold exactly the measured values when the conditioned gates
run (the measurements execute first, in program order), and the final state
is the post-measurement state with the X correction applied exactly when
the two-bit register value equals 1, the Z correction applied exactly when
it equals 2, and the gate silently skipped (state unchanged) otherwise. -/
theorem teleport_conditional_execution (a b : ℂ)
    (hab : Complex.normSq a + Complex.normSq b = 1) (m0 m1 : Bool) :
    (runTele a b m0 m1).creg 0 = m0 ∧
    (runTele a b m0 m1).creg 1 = m1 ∧
    cregVal 2 (runTele a b m0 m1).creg
      = (if m0 then 1 else 0) + 2 * (if m1 then 1 else 0) ∧
    (runTele a b m0 m1).sv =
      (if (if m0 then 1 else 0) + 2 * (if m1 then 1 else 0) = 2
        then applyZ 2 else id)
        ((if (if m0 then 1 else 0) + 2 * (if m1 then 1 else 0) = 1
          then applyX 2 else id)
          (tsv7 a b m0 m1)) := by
  obtain ⟨hsv, hc0, hc1, -⟩ := runTele_eval a b hab m0 m1
  refine ⟨hc0, hc1, ?_, ?_⟩
  · rw [cregVal]
    rw [Finset.sum_range_succ, Finset.sum_range_succ, Finset.sum_range_zero, hc0, hc1]
    cases m0 <;> cases m1 <;> norm_num
  · rw [hsv]
    cases m0 <;> cases m1 <;>
      simp +decide [tele_condX, tele_condZ, tsv7_eq_final_ff, tsv7_eq_final_tt]

/-- Closed witness for C4: the conditional-semantics theorem instantiated at
the source state `|0⟩` and measurement outcomes (0,0). -/
theorem teleport_conditional_execution_witness :
    (runTele 1 0 false false).creg 0 = false ∧
    (runTele 1 0 false false).creg 1 = false ∧
    cregVal 2 (runTele 1 0 false false).creg
      = (if false then 1 else 0) + 2 * (if false then 1 else 0) ∧
    (runTele 1 0 false false).sv =
      (if (if false then 1 else 0) + 2 * (if false then 1 else 0) = 2
        then applyZ 2 else id)
        ((if (if false then 1 else 0) + 2 * (if false then 1 else 0) = 1
          then applyX 2 else id)
          (tsv7 1 0 false false)) :=
  teleport_conditional_execution 1 0 (by simp) false false

/-- C10: when both of the sender's measurements read 1 the register holds 3,
so neither the X correction (which tests 1) nor the Z correction (which
tests 2) fires: the final state is exactly the uncorrected post-measurement
state, the same state the circuit without the two conditioned gates
produces. -/
theorem teleport_outcome3_no_correction (a b : ℂ)
    (hab : Complex.normSq a + Complex.normSq b = 1) :
    cregVal 2 (runTele a b true true).creg = 3 ∧
    (runTele a b true true).sv = tsv7 a b true true ∧
    (runTele a b true true).sv
      = (runOps 3 2 (teleportOpsBare a b) [true, true] shot0).sv := by
  obtain ⟨hsv, hc0, hc1, -⟩ := runTele_eval a b hab true true
  refine ⟨?_, ?_, ?_⟩
  · rw [cregVal]
    rw [Finset.sum_range_succ, Finset.sum_range_succ, Finset.sum_range_zero, hc0, hc1]
    norm_num
  · rw [hsv, ← tsv7_eq_final_tt]
  · rw [hsv, ← tsv7_eq_final_tt, runTeleBare_sv a b hab]

/-- Closed witness for C10: the no-correction theorem at source state `|0⟩`. -/
theorem teleport_outcome3_no_correction_witness :
    cregVal 2 (runTele 1 0 true true).creg = 3 ∧
    (runTele 1 0 true true).sv = tsv7 1 0 true true ∧
    (runTele 1 0 true true).sv
      = (runOps 3 2 (teleportOpsBare 1 0) [true, true] shot0).sv :=
  teleport_outcome3_no_correction 1 0 (by simp)

/-- C1 (code evidence): on the normalized source state `(3/5)·|0⟩ + (4/5)·|1⟩`
and the measurement branch `m0 = 1, m1 = 0` — a branch of positive
probability 1/4 — the script's corrections (X when the register equals 1,
Z when it equals 2) leave the receiver qubit in the state `(-4/5, 3/5)`,
which is not a complex multiple (hence not equal up to global phase) of the
source state `(3/5, 4/5)`: the teleportation round-trip fails.  The correct
protocol would apply Z (not X) on this branch, since classical bit 0 holds
the source-qubit measurement. -/
theorem teleport_branch1_receiver_mismatch :
    (runTele ((3 / 5 : ℝ) : ℂ) ((4 / 5 : ℝ) : ℂ) true false).weight = 1 / 4 ∧
    (runTele ((3 / 5 : ℝ) : ℂ) ((4 / 5 : ℝ) : ℂ) true false).sv 1
      = -(((4 / 5 : ℝ) : ℂ)) ∧
    (runTele ((3 / 5 : ℝ) : ℂ) ((4 / 5 : ℝ) : ℂ) true false).sv 5
      = ((3 / 5 : ℝ) : ℂ) ∧
    ¬∃ c : ℂ, -(((4 / 5 : ℝ) : ℂ)) = c * ((3 / 5 : ℝ) : ℂ) ∧
      ((3 / 5 : ℝ) : ℂ) = c * ((4 / 5 : ℝ) : ℂ) := by
  have hab : Complex.normSq ((3 / 5 : ℝ) : ℂ) + Complex.normSq ((4 / 5 : ℝ) : ℂ) = 1 := by
    rw [Complex.normSq_ofReal, Complex.normSq_ofReal]
    norm_num
  obtain ⟨hsv, -, -, hw⟩ := runTele_eval _ _ hab true false
  refine ⟨hw, ?_, ?_, ?_⟩
  · rw [hsv]
    simp +decide [teleFinal]
  · rw [hsv]
    simp +decide [teleFinal]
  · rintro ⟨c, h1, h2⟩
    have h5 : (-5 : ℂ) = 0 := by
      push_cast at h1 h2 ⊢
      linear_combination 4 * h1 - 3 * h2
    exact absurd h5 (by norm_num)

/-! ### Norm preservation: every gate keeps the state vector normalized -/

/-- Sum of squared amplitude magnitudes of an `n`-qubit state vector. -/
def svNorm (n : ℕ) (sv : ℕ → ℂ) : ℝ :=
  ∑ i ∈ range (2 ^ n), Complex.normSq (sv i)

lemma sum_pair {n q : ℕ} (hq : q < n) (F G : ℕ → ℝ)
    (h : ∀ i, F i + F (bflip q i) = G i + G (bflip q i)) :
    ∑ i ∈ range (2 ^ n), F i = ∑ i ∈ range (2 ^ n), G i := by
  have h0 : ∑ i ∈ range (2 ^ n), (F i - G i) = 0 := by
    refine Finset.sum_involution (fun i _ => bflip q i) ?_ ?_ ?_ ?_
    · intro a _
      have := h a
      linarith
    · intro a _ _
      exact bflip_ne q a
    · intro a ha
      rw [Finset.mem_range] at ha ⊢
      exact bflip_lt hq ha
    · intro a _
      exact bflip_bflip q a
  rw [Finset.sum_sub_distrib] at h0
  linarith

lemma applyH_svNorm {n q : ℕ} (hq : q < n) (sv : ℕ → ℂ) :
    svNorm n (applyH q sv) = svNorm n sv := by
  refine sum_pair hq _ _ ?_
  intro i
  cases hb : qbit q i
  · have hb2 : qbit q (bflip q i) = true := by rw [qbit_bflip_self, hb]; rfl
    simp only [applyH, hb, hb2, if_false, if_true, Bool.false_eq_true, bflip_bflip]
    rw [Complex.normSq_div, Complex.normSq_div, normSq_sqrt2C,
      Complex.normSq_add, Complex.normSq_sub]
    ring
  · have hb2 : qbit q (bflip q i) = false := by rw [qbit_bflip_self, hb]; rfl
    simp only [applyH, hb, hb2, if_false, if_true, Bool.false_eq_true, bflip_bflip]
    rw [Complex.normSq_div, Complex.normSq_div, normSq_sqrt2C,
      Complex.normSq_add, Complex.normSq_sub]
    ring

lemma applyX_svNorm {n q : ℕ} (hq : q < n) (sv : ℕ → ℂ) :
    svNorm n (applyX q sv) = svNorm n sv := by
  refine sum_pair hq _ _ ?_
  intro i
  simp only [applyX, bflip_bflip]
  ring

lemma applyZ_svNorm {n : ℕ} (q : ℕ) (sv : ℕ → ℂ) :
    svNorm n (applyZ q sv) = svNorm n sv := by
  refine Finset.sum_congr rfl fun i _ => ?_
  simp only [applyZ]
  split <;> simp

lemma applyCZ_svNorm {n : ℕ} (c t : ℕ) (sv : ℕ → ℂ) :
    svNorm n (applyCZ c t sv) = svNorm n sv := by
  refine Finset.sum_congr rfl fun i _ => ?_
  simp only [applyCZ]
  split <;> simp

lemma applyCX_svNorm {n c t : ℕ} (ht : t < n) (hct : c ≠ t) (sv : ℕ → ℂ) :
    svNorm n (applyCX c t sv) = svNorm n sv := by
  refine sum_pair ht _ _ ?_
  intro i
  have hc : qbit c (bflip t i) = qbit c i := qbit_bflip_ne hct i
  cases hb : qbit c i
  · simp only [applyCX, hb, hc, if_false, Bool.false_eq_true]
  · simp only [applyCX, hb, hc, if_true, bflip_bflip]
    ring

lemma applyCCX_svNorm {n c1 c2 t : ℕ} (ht : t < n) (h1 : c1 ≠ t) (h2 : c2 ≠ t)
    (sv : ℕ → ℂ) : svNorm n (applyCCX c1 c2 t sv) = svNorm n sv := by
  refine sum_pair ht _ _ ?_
  intro i
  have hc1 : qbit c1 (bflip t i) = qbit c1 i := qbit_bflip_ne h1 i
  have hc2 : qbit c2 (bflip t i) = qbit c2 i := qbit_bflip_ne h2 i
  cases hb : (qbit c1 i && qbit c2 i)
  · simp only [applyCCX, hb, hc1, hc2, if_false, Bool.false_eq_true]
  · simp only [applyCCX, hb, hc1, hc2, if_true, bflip_bflip]
    ring

lemma measProb_nonneg (n q : ℕ) (b : Bool) (sv : ℕ → ℂ) : 0 ≤ measProb n q b sv := by
  refine Finset.sum_nonneg fun i _ => ?_
  split
  · exact Complex.normSq_nonneg _
  · exact le_refl 0

lemma collapse_svNorm {n q : ℕ} (b : Bool) (sv : ℕ → ℂ)
    (hp : measProb n q b sv ≠ 0) : svNorm n (collapse n q b sv) = 1 := by
  have hnn : 0 ≤ measProb n q b sv := measProb_nonneg n q b sv
  have hterm : ∀ i, Complex.normSq
      (if qbit q i = b then sv i / (Real.sqrt (measProb n q b sv) : ℝ) else 0)
      = (if qbit q i = b then Complex.normSq (sv i) else 0) / measProb n q b sv := by
    intro i
    split
    · rw [Complex.normSq_div, Complex.normSq_ofReal, Real.mul_self_sqrt hnn]
    · simp
  unfold svNorm collapse
  rw [Finset.sum_congr rfl fun i _ => hterm i, ← Finset.sum_div,
    show (∑ i ∈ range (2 ^ n), if qbit q i = b then Complex.normSq (sv i) else 0)
      = measProb n q b sv from rfl]
  exact div_self hp

/-! ### The gate matrices used by the scripts, and their unitarity -/

lemma star_sqrt2C : star sqrt2C = sqrt2C := by
  rw [Complex.star_def, sqrt2C, Complex.conj_ofReal]

lemma conj_sqrt2C : (starRingEnd ℂ) sqrt2C = sqrt2C := by
  rw [sqrt2C, Complex.conj_ofReal]

lemma inv_sqrt2C_mul_inv_sqrt2C : sqrt2C⁻¹ * sqrt2C⁻¹ = 2⁻¹ := by
  rw [← mul_inv, sqrt2C_mul_self]

/-- The Hadamard matrix. -/
def hGateMat : Matrix (Fin 2) (Fin 2) ℂ :=
  !![1 / sqrt2C, 1 / sqrt2C; 1 / sqrt2C, -(1 / sqrt2C)]

/-- The Pauli-X matrix. -/
def xGateMat : Matrix (Fin 2) (Fin 2) ℂ := !![0, 1; 1, 0]

/-- The Pauli-Z matrix. -/
def zGateMat : Matrix (Fin 2) (Fin 2) ℂ := !![1, 0; 0, -1]

/-- The controlled-NOT matrix, control qubit 0 (index bit 0), target qubit 1:
it swaps the basis states with index 1 and 3. -/
def cxGateMat : Matrix (Fin 4) (Fin 4) ℂ :=
  !![1, 0, 0, 0; 0, 0, 0, 1; 0, 0, 1, 0; 0, 1, 0, 0]

/-- The controlled-Z matrix: it negates the `|11⟩` amplitude. -/
def czGateMat : Matrix (Fin 4) (Fin 4) ℂ :=
  !![1, 0, 0, 0; 0, 1, 0, 0; 0, 0, 1, 0; 0, 0, 0, -1]

/-- The basis permutation of the Toffoli gate on three qubits, controls at
index bits 0 and 1, target at bit 2: it swaps the basis states 3 and 7 and
fixes the rest. -/
def ccxPerm : Fin 8 → Fin 8 := fun j => if j = 3 then 7 else if j = 7 then 3 else j

/-- The Toffoli (multi-controlled X) matrix on three qubits: the permutation
matrix of `ccxPerm`. -/
def ccxGateMat : Matrix (Fin 8) (Fin 8) ℂ :=
  Matrix.of fun i j => if i = ccxPerm j then 1 else 0

/-- Hadamard on qubit 0 of a two-qubit register. -/
def h0Mat4 : Matrix (Fin 4) (Fin 4) ℂ :=
  !![1 / sqrt2C, 1 / sqrt2C, 0, 0;
     1 / sqrt2C, -(1 / sqrt2C), 0, 0;
     0, 0, 1 / sqrt2C, 1 / sqrt2C;
     0, 0, 1 / sqrt2C, -(1 / sqrt2C)]

/-- Hadamard on qubit 1 of a two-qubit register. -/
def h1Mat4 : Matrix (Fin 4) (Fin 4) ℂ :=
  !![1 / sqrt2C, 0, 1 / sqrt2C, 0;
     0, 1 / sqrt2C, 0, 1 / sqrt2C;
     1 / sqrt2C, 0, -(1 / sqrt2C), 0;
     0, 1 / sqrt2C, 0, -(1 / sqrt2C)]

/-- Pauli-X on qubit 0 of a two-qubit register. -/
def x0Mat4 : Matrix (Fin 4) (Fin 4) ℂ :=
  !![0, 1, 0, 0; 1, 0, 0, 0; 0, 0, 0, 1; 0, 0, 1, 0]

/-- Pauli-X on qubit 1 of a two-qubit register. -/
def x1Mat4 : Matrix (Fin 4) (Fin 4) ℂ :=
  !![0, 0, 1, 0; 0, 0, 0, 1; 1, 0, 0, 0; 0, 1, 0, 0]

/-- The composed 2-qubit diffuser matrix, the factors in reverse circuit
order (the script applies H H, X X, H·CX·H, X X, H H). -/
def diffuserMat : Matrix (Fin 4) (Fin 4) ℂ :=
  h1Mat4 * h0Mat4 * x1Mat4 * x0Mat4 * h1Mat4 * cxGateMat * h1Mat4 *
    x1Mat4 * x0Mat4 * h1Mat4 * h0Mat4

lemma unitary_mul {n : ℕ} {A B : Matrix (Fin n) (Fin n) ℂ}
    (hA : Aᴴ * A = 1) (hB : Bᴴ * B = 1) : (A * B)ᴴ * (A * B) = 1 := by
  rw [Matrix.conjTranspose_mul, Matrix.mul_assoc, ← Matrix.mul_assoc Aᴴ, hA,
    Matrix.one_mul, hB]

lemma hGateMat_unitary : hGateMatᴴ * hGateMat = 1 := by
  ext i j
  fin_cases i <;> fin_cases j <;>
    simp [hGateMat, Matrix.mul_apply, Fin.sum_univ_succ, Matrix.conjTranspose_apply,
      star_sqrt2C, conj_sqrt2C, one_div, inv_sqrt2C_mul_inv_sqrt2C, Matrix.one_apply] <;>
    norm_num

lemma xGateMat_unitary : xGateMatᴴ * xGateMat = 1 := by
  ext i j
  fin_cases i <;> fin_cases j <;>
    simp [xGateMat, Matrix.mul_apply, Fin.sum_univ_succ, Matrix.conjTranspose_apply,
      Matrix.one_apply]

lemma zGateMat_unitary : zGateMatᴴ * zGateMat = 1 := by
  ext i j
  fin_cases i <;> fin_cases j <;>
    simp [zGateMat, Matrix.mul_apply, Fin.sum_univ_succ, Matrix.conjTranspose_apply,
      Matrix.one_apply]

lemma cxGateMat_unitary : cxGateMatᴴ * cxGateMat = 1 := by
  ext i j
  fin_cases i <;> fin_cases j <;>
    simp [cxGateMat, Matrix.mul_apply, Fin.sum_univ_succ, Matrix.conjTranspose_apply,
      Matrix.one_apply]

lemma czGateMat_unitary : czGateMatᴴ * czGateMat = 1 := by
  ext i j
  fin_cases i <;> fin_cases j <;>
    simp [czGateMat, Matrix.mul_apply, Fin.sum_univ_succ, Matrix.conjTranspose_apply,
      Matrix.one_apply]

lemma ccxGateMat_unitary : ccxGateMatᴴ * ccxGateMat = 1 := by
  ext i j
  fin_cases i <;> fin_cases j <;>
    simp +decide [ccxGateMat, ccxPerm, Matrix.mul_apply, Fin.sum_univ_succ,
      Matrix.conjTranspose_apply, Matrix.one_apply]

lemma h0Mat4_unitary : h0Mat4ᴴ * h0Mat4 = 1 := by
  ext i j
  fin_cases i <;> fin_cases j <;>
    simp [h0Mat4, Matrix.mul_apply, Fin.sum_univ_succ, Matrix.conjTranspose_apply,
      star_sqrt2C, conj_sqrt2C, one_div, inv_sqrt2C_mul_inv_sqrt2C, Matrix.one_apply] <;>
    norm_num

lemma h1Mat4_unitary : h1Mat4ᴴ * h1Mat4 = 1 := by
  ext i j
  fin_cases i <;> fin_cases j <;>
    simp [h1Mat4, Matrix.mul_apply, Fin.sum_univ_succ, Matrix.conjTranspose_apply,
      star_sqrt2C, conj_sqrt2C, one_div, inv_sqrt2C_mul_inv_sqrt2C, Matrix.one_apply] <;>
    norm_num

lemma x0Mat4_unitary : x0Mat4ᴴ * x0Mat4 = 1 := by
  ext i j
  fin_cases i <;> fin_cases j <;>
    simp [x0Mat4, Matrix.mul_apply, Fin.sum_univ_succ, Matrix.conjTranspose_apply,
      Matrix.one_apply]

lemma x1Mat4_unitary : x1Mat4ᴴ * x1Mat4 = 1 := by
  ext i j
  fin_cases i <;> fin_cases j <;>
    simp [x1Mat4, Matrix.mul_apply, Fin.sum_univ_succ, Matrix.conjTranspose_apply,
      Matrix.one_apply]

lemma diffuserMat_unitary : diffuserMatᴴ * diffuserMat = 1 := by
  unfold diffuserMat
  exact unitary_mul (unitary_mul (unitary_mul (unitary_mul (unitary_mul (unitary_mul
    (unitary_mul (unitary_mul (unitary_mul (unitary_mul h1Mat4_unitary h0Mat4_unitary)
      x1Mat4_unitary) x0Mat4_unitary) h1Mat4_unitary) cxGateMat_unitary) h1Mat4_unitary)
        x1Mat4_unitary) x0Mat4_unitary) h1Mat4_unitary) h0Mat4_unitary

/-- C6: normalization invariant.  Every gate matrix the three scripts use
(H, X, Z, CX, CZ, the multi-controlled Toffoli, and the composed 2-qubit
diffuser) is exactly unitary — hence unitary within any tolerance, in
particular 1e-9 — and the corresponding state-vector operations preserve
the sum of squared amplitude magnitudes of every `n`-qubit state vector;
measurement projection with renormalization returns a state of norm
exactly 1 whenever the measured outcome has nonzero probability, so the
norm is 1 after every operation of a circuit execution. -/
theorem gates_unitary_and_norm_preserving :
    hGateMatᴴ * hGateMat = 1 ∧
    xGateMatᴴ * xGateMat = 1 ∧
    zGateMatᴴ * zGateMat = 1 ∧
    cxGateMatᴴ * cxGateMat = 1 ∧
    czGateMatᴴ * czGateMat = 1 ∧
    ccxGateMatᴴ * ccxGateMat = 1 ∧
    diffuserMatᴴ * diffuserMat = 1 ∧
    (∀ n q : ℕ, ∀ sv : ℕ → ℂ, q < n → svNorm n (applyH q sv) = svNorm n sv) ∧
    (∀ n q : ℕ, ∀ sv : ℕ → ℂ, q < n → svNorm n (applyX q sv) = svNorm n sv) ∧
    (∀ n q : ℕ, ∀ sv : ℕ → ℂ, svNorm n (applyZ q sv) = svNorm n sv) ∧
    (∀ n c t : ℕ, ∀ sv : ℕ → ℂ, t < n → c ≠ t →
      svNorm n (applyCX c t sv) = svNorm n sv) ∧
    (∀ n c t : ℕ, ∀ sv : ℕ → ℂ, svNorm n (applyCZ c t sv) = svNorm n sv) ∧
    (∀ n c1 c2 t : ℕ, ∀ sv : ℕ → ℂ, t < n → c1 ≠ t → c2 ≠ t →
      svNorm n (applyCCX c1 c2 t sv) = svNorm n sv) ∧
    (∀ n q : ℕ, ∀ b : Bool, ∀ sv : ℕ → ℂ, measProb n q b sv ≠ 0 →
      svNorm n (collapse n q b sv) = 1) :=
  ⟨hGateMat_unitary, xGateMat_unitary, zGateMat_unitary, cxGateMat_unitary,
   czGateMat_unitary, ccxGateMat_unitary, diffuserMat_unitary,
   fun _ _ sv hq => applyH_svNorm hq sv,
   fun _ _ sv hq => applyX_svNorm hq sv,
   fun _ q sv => applyZ_svNorm q sv,
   fun _ _ _ sv ht hct => applyCX_svNorm ht hct sv,
   fun _ c t sv => applyCZ_svNorm c t sv,
   fun _ _ _ _ sv ht h1 h2 => applyCCX_svNorm ht h1 h2 sv,
   fun _ _ b sv hp => collapse_svNorm b sv hp⟩

/-- Closed witness for C6: norm preservation of the Hadamard on a concrete
one-qubit state, with the hypothesis `0 < 1` discharged. -/
theorem gates_unitary_and_norm_preserving_witness :
    svNorm 1 (applyH 0 basis0) = svNorm 1 basis0 :=
  gates_unitary_and_norm_preserving.2.2.2.2.2.2.2.1 1 0 basis0 (by norm_num)

/-! ### The result aggregator (C7)

The tallying itself is performed by the external library's
`result.get_counts`; it is not part of this repository's sources. -/

/-- Modelled from the spec: the result aggregator's `tally` — missing from
the repository sources, performed by the library's `get_counts` — maps each
outcome bitstring to its occurrence count over the shot results. -/
def tally (shots : List String) (o : String) : ℕ := shots.count o

/-- Modelled from the spec: `to_probabilities` divides each tally entry by
the total shot count. -/
def to_probabilities (shots : List String) (S : ℕ) (o : String) : ℚ :=
  (tally shots o : ℚ) / (S : ℚ)

/-- C7: for every run of `S ≥ 1` shots, the tally's values sum to exactly
`S` over the histogram's key set, and the probabilities are each in `[0,1]`
and sum to exactly 1 (so certainly within 1e-9); in particular the counts
of a 1024-shot run sum to 1024. -/
theorem tally_sums_to_shots (shots : List String) (S : ℕ)
    (hS : shots.length = S) (hone : 1 ≤ S) :
    (∑ o ∈ shots.toFinset, tally shots o) = S ∧
    (∀ o, 0 ≤ to_probabilities shots S o ∧ to_probabilities shots S o ≤ 1) ∧
    (∑ o ∈ shots.toFinset, to_probabilities shots S o) = 1 ∧
    (S = 1024 → (∑ o ∈ shots.toFinset, tally shots o) = 1024) := by
  have hsum : (∑ o ∈ shots.toFinset, tally shots o) = S := by
    rw [← hS]
    unfold tally
    have h := Multiset.sum_count_eq_card (s := shots.toFinset)
      (m := (shots : Multiset String))
      (fun a ha => List.mem_toFinset.mpr (Multiset.mem_coe.mp ha))
    simpa using h
  have hS0 : ((S : ℚ)) ≠ 0 := Nat.cast_ne_zero.mpr (by omega)
  have hSpos : (0 : ℚ) < (S : ℚ) := by
    exact_mod_cast Nat.lt_of_lt_of_le Nat.zero_lt_one hone
  refine ⟨hsum, ?_, ?_, fun _ => by rw [hsum]; omega⟩
  · intro o
    unfold to_probabilities
    constructor
    · apply div_nonneg (Nat.cast_nonneg _) (Nat.cast_nonneg _)
    · rw [div_le_one hSpos]
      have hle : tally shots o ≤ S := by
        rw [← hS]
        exact List.count_le_length o shots
      exact_mod_cast hle
  · unfold to_probabilities
    rw [← Finset.sum_div, ← Nat.cast_sum, hsum]
    exact div_self hS0

/-- Closed witness for C7: a concrete two-shot run, the length and
positivity hypotheses discharged at the list `["00", "11"]`. -/
theorem tally_sums_to_shots_witness :
    (∑ o ∈ (["00", "11"] : List String).toFinset, tally ["00", "11"] o) = 2 ∧
    (∀ o, 0 ≤ to_probabilities ["00", "11"] 2 o ∧
      to_probabilities ["00", "11"] 2 o ≤ 1) ∧
    (∑ o ∈ (["00", "11"] : List String).toFinset, to_probabilities ["00", "11"] 2 o) = 1 ∧
    (2 = 1024 →
      (∑ o ∈ (["00", "11"] : List String).toFinset, tally ["00", "11"] o) = 1024) :=
  tally_sums_to_shots ["00", "11"] 2 rfl (by norm_num)

/-! ### The plotting section (C8) and the verification report (C9) -/

/-- Possible outcomes of the plotting section that ends the Bell and Grover
scripts. -/
inductive PlotOutcome
  | chartShown
  | warnedNoChart
  | crashed
deriving DecidableEq

/-- The plotting section as the scripts write it: `plot_histogram` is
called outside any `try`; then `plot.show()` runs inside a `try` whose
`except` handler prints a warning and continues.  The two booleans say
whether each of the two calls raises an exception. -/
def plotSection (histRaises showRaises : Bool) : PlotOutcome :=
  if histRaises then PlotOutcome.crashed
  else if showRaises then PlotOutcome.warnedNoChart
  else PlotOutcome.chartShown

/-- C8 counterexample: when producing the chart (the `plot_histogram` call
itself, e.g. with a missing plotting backend) raises, the exception
propagates — the run crashes rather than continuing with a warning,
because only `plot.show()` is inside the `try` block. -/
theorem plot_failure_counterexample :
    plotSection true false = PlotOutcome.crashed ∧
    plotSection true false ≠ PlotOutcome.warnedNoChart ∧
    plotSection true false ≠ PlotOutcome.chartShown := by
  refine ⟨rfl, ?_, ?_⟩ <;> decide

/-- C8 amended: only the display step is guarded.  Whenever `plot.show()`
raises (chart production itself succeeding), the exception is caught
locally, the warning is printed, and the run completes without showing a
chart; a show failure never crashes the run. -/
theorem plot_show_failure_recovered (showRaises : Bool) :
    plotSection false showRaises ≠ PlotOutcome.crashed ∧
    (showRaises = true → plotSection false showRaises = PlotOutcome.warnedNoChart) ∧
    (showRaises = false → plotSection false showRaises = PlotOutcome.chartShown) := by
  cases showRaises <;> refine ⟨by decide, ?_, ?_⟩ <;> intro h <;> simp_all <;> rfl

/-- Closed witness for C8: the amended theorem at a failing `plot.show()`. -/
theorem plot_show_failure_recovered_witness :
    plotSection false true ≠ PlotOutcome.crashed ∧
    plotSection false true = PlotOutcome.warnedNoChart :=
  ⟨(plot_show_failure_recovered true).1, (plot_show_failure_recovered true).2.1 rfl⟩

/-- The success message of the teleportation script's verification branch. -/
def successMsg : String := "Success! The state was teleported correctly."

/-- The failure message of the teleportation script's verification branch. -/
def failureMsg : String := "Failure. The states do not match."

/-- The verification reporting of the teleportation script: the boolean
result of the `np.allclose` comparison selects which message is printed;
both branches print and return normally, no path raises. -/
def verificationMsg (allclose : Bool) : String :=
  if allclose then successMsg else failureMsg

/-- C9: the statevector verification reports by printing — `successMsg`
exactly when the near-equality check passes and `failureMsg` exactly when
it does not — and every execution path produces one of the two messages
(the comparison never raises). -/
theorem teleport_verification_reports (allclose : Bool) :
    (verificationMsg allclose = successMsg ↔ allclose = true) ∧
    (verificationMsg allclose = failureMsg ↔ allclose = false) ∧
    (verificationMsg allclose = successMsg ∨ verificationMsg allclose = failureMsg) := by
  cases allclose <;> refine ⟨?_, ?_, ?_⟩ <;> decide
